import Mathlib

/-!
Verification of the data-transformation core of the "Plan de Medios ·
Comunidad de Madrid" dashboard (src/app.py), as a shallow embedding.

Monetary amounts and numeric period values are modelled as rationals
(the Python code works with pandas float64 values; the claims under
study do not depend on rounding, so ℚ is the idealisation used here).
Strings are Lean `String`s; the pandas `str.replace(pat, repl,
regex=False)` calls in the source only ever replace single characters,
so they are embedded as character-wise operations on `String.toList`.
-/

set_option maxRecDepth 4000

/-- One digit character to its value, as `pd.to_numeric` would read it;
`none` on a non-digit. -/
def charDigit (c : Char) : Option Nat :=
  if '0' ≤ c ∧ c ≤ '9' then some (c.toNat - '0'.toNat) else none

/-- Value of a digit string, `none` if any character is not a digit.
(The empty list yields `some 0`; emptiness is checked by the caller.) -/
def digitsVal (cs : List Char) : Option Nat :=
  cs.foldl
    (fun acc c =>
      match acc, charDigit c with
      | some n, some d => some (n * 10 + d)
      | _, _ => none)
    (some 0)

/-- Parse an unsigned decimal literal (digits, optionally one decimal
point, at least one digit overall), mirroring what `pd.to_numeric`
accepts for the plain decimal strings this dataset carries: a string
with integer digits `n`, a point and `k` fraction digits `m` denotes
the rational (n·10^k + m) / 10^k.  `none` models the NaN produced by
`errors="coerce"` on a malformed string. -/
def parseUnsigned (cs : List Char) : Option ℚ :=
  let intPart := cs.takeWhile (fun c => c ≠ '.')
  let rest := cs.dropWhile (fun c => c ≠ '.')
  match rest with
  | [] =>
    if intPart.isEmpty then none
    else (digitsVal intPart).map (fun n => mkRat n 1)
  | _ :: frac =>
    if intPart.isEmpty && frac.isEmpty then none
    else
      match digitsVal intPart, digitsVal frac with
      | some n, some m => some (mkRat (n * 10 ^ frac.length + m) (10 ^ frac.length))
      | _, _ => none

/-- `pd.to_numeric(s, errors="coerce")` on one cell: optional sign then
an unsigned decimal literal; `none` models NaN for a parse failure. -/
def toNumeric (s : String) : Option ℚ :=
  match s.toList with
  | '-' :: rest => (parseUnsigned rest).map (fun q => -q)
  | '+' :: rest => parseUnsigned rest
  | cs => parseUnsigned cs

/-- `.str.replace(".", "", regex=False)` — drop every dot
(src/app.py line 47). -/
def stripDots (s : String) : String :=
  String.mk (s.toList.filter (fun c => c ≠ '.'))

/-- `.str.replace(",", ".", regex=False)` — every comma becomes a dot
(src/app.py line 48). -/
def commaToDot (s : String) : String :=
  String.mk (s.toList.map (fun c => if c = ',' then '.' else c))

/-- Normalised Importe value of one raw cell (src/app.py lines 45-50):
strip dots, comma to dot, `pd.to_numeric(..., errors="coerce").fillna(0)`. -/
def importeValue (s : String) : ℚ :=
  (toNumeric (commaToDot (stripDots s))).getD 0

/-- `pd.to_numeric(df["Periodo"], errors="coerce")` on one cell
(src/app.py line 51); `none` is the NaN a malformed cell becomes. -/
def periodoValue (s : String) : Option ℚ :=
  toNumeric s

/-- One row of the source CSV, all cells still raw strings. -/
structure RawRow where
  periodo : String
  tipo : String
  soporte : String
  importe : String
  origen : String
deriving Repr, DecidableEq

/-- One row of the loaded table, after `cargar_datos` normalisation. -/
structure Row where
  periodo : ℚ
  tipo : String
  soporte : String
  importe : ℚ
  origen : String
deriving Repr, DecidableEq

/-- `cargar_datos` (src/app.py lines 42-53): normalise Importe, coerce
Periodo, keep exactly the rows with `Periodo.between(2021, 2024)`
(inclusive on both ends; a NaN Periodo fails `between`). -/
def cargarDatos (rs : List RawRow) : List Row :=
  rs.filterMap (fun r =>
    match periodoValue r.periodo with
    | some p =>
      if 2021 ≤ p ∧ p ≤ 2024 then
        some ⟨p, r.tipo, r.soporte, importeValue r.importe, r.origen⟩
      else none
    | none => none)

/-- The sidebar filter chain (src/app.py lines 109-115): each of the
three selectors narrows the table only when it is not `"Todos"`;
`none` here models the `"Todos"` choice. -/
def applyFilters (t : List Row) (periodo : Option ℚ)
    (tipo : Option String) (soporte : Option String) : List Row :=
  let t1 := match periodo with
    | none => t
    | some v => t.filter (fun r => r.periodo = v)
  let t2 := match tipo with
    | none => t1
    | some v => t1.filter (fun r => r.tipo = v)
  match soporte with
  | none => t2
  | some v => t2.filter (fun r => r.soporte = v)

/-- Insert `a` into `l` before the first element it is `le`-below;
auxiliary step of `sortBy`. -/
def insertSorted (le : α → α → Bool) (a : α) : List α → List α
  | [] => [a]
  | b :: bs => if le a b then a :: b :: bs else b :: insertSorted le a bs

/-- Insertion sort by a boolean comparison; the embedding's model for
the sorted outputs pandas produces (`groupby(sort=True)` key order and
`sort_values`).  For the distinct group keys the sorted result is
unique, so any correct sort is a faithful model; for value sorts with
ties the theorems below never depend on the tie order. -/
def sortBy (le : α → α → Bool) : List α → List α
  | [] => []
  | a :: as => insertSorted le a (sortBy le as)

/-- Code-point lexicographic comparison of character lists, the order
Python (and hence pandas) uses on strings. -/
def charListLe : List Char → List Char → Bool
  | [], _ => true
  | _ :: _, [] => false
  | a :: as, b :: bs => if a = b then charListLe as bs else decide (a < b)

/-- Code-point lexicographic comparison of strings. -/
def strLe (a b : String) : Bool :=
  charListLe a.toList b.toList

/-- The distinct values of a grouping field, as pandas `groupby`
collects them (one group per distinct key). -/
def distinctKeys (t : List Row) (f : Row → String) : List String :=
  (t.map f).dedup

/-- Sum of Importe over the rows of one group. -/
def groupSum (t : List Row) (f : Row → String) (k : String) : ℚ :=
  ((t.filter (fun r => f r = k)).map Row.importe).sum

/-- `df.groupby(F)["Importe"].sum()` (src/app.py lines 142-146 and 198,
208-211): pandas `groupby` with its default `sort=True` returns one
entry per distinct key, keys in ascending lexicographic order. -/
def sumBy (t : List Row) (f : Row → String) : List (String × ℚ) :=
  (sortBy strLe (distinctKeys t f)).map (fun k => (k, groupSum t f k))

/-- `.sort_values(ascending=False)` on an aggregate (src/app.py lines
145, 211): reorder by value, descending.  pandas' default sort kind is
quicksort, whose tie order is algorithm-determined; the embedding uses
a deterministic sort and the theorems below depend only on the value
order, never on how ties are broken. -/
def sortDesc (agg : List (String × ℚ)) : List (String × ℚ) :=
  sortBy (fun a b => decide (b.2 ≤ a.2)) agg

/-- `.sort_values(ascending=False).head(n)` (src/app.py lines 208-212,
with n = 15 in the source). -/
def rankTopN (agg : List (String × ℚ)) (n : Nat) : List (String × ℚ) :=
  (sortDesc agg).take n

/-- The "% del total" computation in journalist mode (src/app.py line
151): `total_medio / total_global * 100`, with no guard on a zero
total.  numpy float division by zero yields NaN (or ±inf), never 0.0;
that invalid outcome is modelled as `none`, while a nonzero total
gives the exact quotient. -/
def pctOfTotal (x t : ℚ) : Option ℚ :=
  if t = 0 then none else some (x / t * 100)

/-- Temp-file effect of `exportar_pdf` (src/app.py lines 73-78) on the
set of temporary image files, named here by numbers: for each figure a
`NamedTemporaryFile(suffix=".png", delete=False)` is created — a fresh
file that the `with` block does NOT delete on exit — and no code path
removes it afterwards. -/
def exportarPdfTmpFiles (figuras : List Nat) (tmps : List Nat) : List Nat :=
  figuras.foldl (fun acc _fig => acc ++ [acc.length]) tmps

/-- Journalist mode's per-outlet table `df_m` (src/app.py lines
134-136): the base table restricted to the chosen outlet, then to the
sidebar period when that is not `"Todos"`. -/
def dfM (df : List Row) (soportePrensa : String) (periodo : Option ℚ) : List Row :=
  let m := df.filter (fun r => r.soporte = soportePrensa)
  match periodo with
  | none => m
  | some v => m.filter (fun r => r.periodo = v)

/-- `df_m["Tipo"].iloc[0]` (src/app.py line 140): the Tipo of the first
row of `df_m`; `none` models the IndexError raised when `df_m` is
empty. -/
def tipoMedio (df : List Row) (soportePrensa : String) (periodo : Option ℚ) :
    Option String :=
  (dfM df soportePrensa periodo).head?.map Row.tipo

/-- C1 counterexample: with a zero total the code's percentage
computation performs the division and produces an invalid value
(`none`, the model of NaN), not 0.0. -/
theorem pct_zero_total_counterexample : pctOfTotal 5 0 ≠ some 0 := by
  simp [pctOfTotal]

/-- C1 (amended): the percentage computation `total_medio /
total_global * 100` has no zero guard: a zero total is divided anyway
and yields an invalid value (`none`, modelling NaN), not 0.0; a
nonzero total yields x/total × 100. -/
theorem pct_of_total_amended :
    (∀ x : ℚ, pctOfTotal x 0 = none) ∧
    (∀ x t : ℚ, t ≠ 0 → pctOfTotal x t = some (x / t * 100)) := by
  constructor
  · intro x; simp [pctOfTotal]
  · intro x t ht; simp [pctOfTotal, ht]

/-- Witness for `pct_of_total_amended` at x = 50, t = 200. -/
theorem pct_of_total_amended_witness :
    pctOfTotal 5 0 = none ∧ pctOfTotal 50 200 = some (50 / 200 * 100) :=
  ⟨pct_of_total_amended.1 5, pct_of_total_amended.2 50 200 (by norm_num)⟩

/-- C2: `exportar_pdf` creates each chart's temporary PNG with
`delete=False` and never removes it, so a call with one chart leaves
one temporary file behind — the set of temporary files after the call
is NOT the set that existed before it. -/
theorem exportar_pdf_leaks_tmp_file :
    exportarPdfTmpFiles [0] [] = [0] ∧ exportarPdfTmpFiles [0] [] ≠ [] := by
  exact ⟨rfl, by decide⟩

/-- C3: Amount normalization strips grouping dots, turns the decimal
comma into a point and parses; "1.234,56" yields 1234.56, "abc" yields
0.0, and any string whose normalised form fails to parse yields 0.0
(never an error). -/
theorem importe_normalization :
    importeValue "1.234,56" = 1234.56 ∧
    importeValue "abc" = 0 ∧
    (∀ s : String, toNumeric (commaToDot (stripDots s)) = none → importeValue s = 0) := by
  refine ⟨?_, by decide, ?_⟩
  · have h : importeValue "1.234,56" = mkRat 123456 100 := by decide
    rw [h, Rat.mkRat_eq_div]; norm_num
  · intro s hs; simp [importeValue, hs]

/-- Witness for `importe_normalization`: the parse-failure clause
applied to the concrete malformed string "abc". -/
theorem importe_normalization_witness : importeValue "abc" = 0 :=
  importe_normalization.2.2 "abc" (by decide)

/-- C8: selecting "Todos" in all three sidebar selectors leaves the
loaded base table unchanged in row count and content. -/
theorem all_filters_todos_identity :
    ∀ rs : List RawRow, applyFilters (cargarDatos rs) none none none = cargarDatos rs :=
  fun _ => rfl

/-- C10: for the base table with outlet "A" only in 2021 and outlet
"B" only in 2022, and sidebar selection Period = 2021 (Type and Outlet
"Todos"), the empty-selection guard does not fire (`df_f` is
nonempty), yet journalist mode's `df_m` for outlet "B" is empty, so
the first-row Tipo access `df_m["Tipo"].iloc[0]` fails (IndexError,
modelled as `none`) instead of reaching the empty-state path. -/
theorem modo_periodista_iloc_failure :
    applyFilters [⟨2021, "TV", "A", 1, "O"⟩, ⟨2022, "Radio", "B", 1, "O"⟩]
        (some 2021) none none ≠ [] ∧
    dfM [⟨2021, "TV", "A", 1, "O"⟩, ⟨2022, "Radio", "B", 1, "O"⟩] "B" (some 2021) = [] ∧
    tipoMedio [⟨2021, "TV", "A", 1, "O"⟩, ⟨2022, "Radio", "B", 1, "O"⟩] "B" (some 2021) = none := by
  exact ⟨by decide, by decide, by decide⟩

/-- `insertSorted` permutes insertion: the result is a rearrangement of
the element together with the original list. -/
theorem insertSorted_perm (le : α → α → Bool) (a : α) :
    ∀ l : List α, List.Perm (insertSorted le a l) (a :: l) := by
  intro l
  induction l with
  | nil => simp [insertSorted]
  | cons b bs ih =>
    rw [insertSorted]
    by_cases h : le a b = true
    · rw [if_pos h]
    · rw [if_neg h]
      exact (ih.cons b).trans (List.Perm.swap a b bs)

/-- Membership in an `insertSorted` result. -/
theorem mem_insertSorted {le : α → α → Bool} {a x : α} {l : List α} :
    x ∈ insertSorted le a l ↔ x = a ∨ x ∈ l := by
  rw [(insertSorted_perm le a l).mem_iff, List.mem_cons]

/-- `insertSorted` keeps a list sorted, for a total transitive
comparison. -/
theorem pairwise_insertSorted {le : α → α → Bool}
    (total : ∀ x y, le x y = true ∨ le y x = true)
    (trans : ∀ x y z, le x y = true → le y z = true → le x z = true)
    (a : α) : ∀ l : List α, l.Pairwise (fun x y => le x y = true) →
    (insertSorted le a l).Pairwise (fun x y => le x y = true) := by
  intro l
  induction l with
  | nil => intro _; simp [insertSorted]
  | cons b bs ih =>
    intro h
    rw [List.pairwise_cons] at h
    obtain ⟨hb, hbs⟩ := h
    rw [insertSorted]
    by_cases hab : le a b = true
    · rw [if_pos hab, List.pairwise_cons]
      constructor
      · intro x hx
        rcases List.mem_cons.mp hx with rfl | hx
        · exact hab
        · exact trans a b x hab (hb x hx)
      · rw [List.pairwise_cons]; exact ⟨hb, hbs⟩
    · rw [if_neg hab, List.pairwise_cons]
      constructor
      · intro x hx
        rcases mem_insertSorted.mp hx with rfl | hx
        · rcases total x b with h1 | h1
          · exact absurd h1 hab
          · exact h1
        · exact hb x hx
      · exact ih hbs

/-- `sortBy` permutes its input. -/
theorem sortBy_perm (le : α → α → Bool) : ∀ l : List α, List.Perm (sortBy le l) l := by
  intro l
  induction l with
  | nil => simp [sortBy]
  | cons a as ih =>
    rw [sortBy]
    exact (insertSorted_perm le a (sortBy le as)).trans (ih.cons a)

/-- `sortBy` sorts, for a total transitive comparison. -/
theorem pairwise_sortBy {le : α → α → Bool}
    (total : ∀ x y, le x y = true ∨ le y x = true)
    (trans : ∀ x y z, le x y = true → le y z = true → le x z = true) :
    ∀ l : List α, (sortBy le l).Pairwise (fun x y => le x y = true) := by
  intro l
  induction l with
  | nil => simp [sortBy]
  | cons a as ih =>
    rw [sortBy]
    exact pairwise_insertSorted total trans a _ ih

/-- Code-point comparison of character lists is total. -/
theorem charListLe_total : ∀ xs ys : List Char,
    charListLe xs ys = true ∨ charListLe ys xs = true := by
  intro xs
  induction xs with
  | nil => intro ys; left; rfl
  | cons a as ih =>
    intro ys
    cases ys with
    | nil => right; rfl
    | cons b bs =>
      rw [charListLe, charListLe]
      by_cases hab : a = b
      · subst hab
        rw [if_pos rfl, if_pos rfl]
        exact ih bs
      · rw [if_neg hab, if_neg (Ne.symm hab)]
        rcases lt_or_gt_of_ne hab with h | h
        · left; exact decide_eq_true h
        · right; exact decide_eq_true h

/-- Code-point comparison of character lists is transitive. -/
theorem charListLe_trans : ∀ xs ys zs : List Char,
    charListLe xs ys = true → charListLe ys zs = true →
    charListLe xs zs = true := by
  intro xs
  induction xs with
  | nil => intro ys zs _ _; rfl
  | cons a as ih =>
    intro ys zs h1 h2
    cases ys with
    | nil => rw [charListLe] at h1; exact absurd h1 (by simp)
    | cons b bs =>
      cases zs with
      | nil => rw [charListLe] at h2; exact absurd h2 (by simp)
      | cons c cs =>
        rw [charListLe] at h1 h2 ⊢
        by_cases hab : a = b <;> by_cases hbc : b = c <;> by_cases hac : a = c
        · rw [if_pos hab] at h1; rw [if_pos hbc] at h2; rw [if_pos hac]
          exact ih bs cs h1 h2
        · exact absurd (hab.trans hbc) hac
        · exact absurd (hab.symm.trans hac) hbc
        · rw [if_pos hab] at h1; rw [if_neg hbc] at h2; rw [if_neg hac]
          have hb : b < c := of_decide_eq_true h2
          exact decide_eq_true (by rw [hab]; exact hb)
        · exact absurd (hac.trans hbc.symm) hab
        · rw [if_neg hab] at h1; rw [if_neg hac]
          have ha : a < b := of_decide_eq_true h1
          exact decide_eq_true (by rw [← hbc]; exact ha)
        · rw [if_neg hab] at h1; rw [if_neg hbc] at h2; rw [if_pos hac]
          have ha : a < b := of_decide_eq_true h1
          have hb : b < c := of_decide_eq_true h2
          exact absurd (lt_trans ha hb) (by rw [hac]; exact lt_irrefl c)
        · rw [if_neg hab] at h1; rw [if_neg hbc] at h2; rw [if_neg hac]
          have ha : a < b := of_decide_eq_true h1
          have hb : b < c := of_decide_eq_true h2
          exact decide_eq_true (lt_trans ha hb)

/-- `strLe` is total. -/
theorem strLe_total : ∀ x y : String, strLe x y = true ∨ strLe y x = true :=
  fun x y => charListLe_total x.toList y.toList

/-- `strLe` is transitive. -/
theorem strLe_trans : ∀ x y z : String,
    strLe x y = true → strLe y z = true → strLe x z = true :=
  fun x y z => charListLe_trans x.toList y.toList z.toList

/-- The descending value sort really is non-increasing in value. -/
theorem sortDesc_pairwise (agg : List (String × ℚ)) :
    (sortDesc agg).Pairwise (fun x y => y.2 ≤ x.2) := by
  have h := @pairwise_sortBy (String × ℚ)
    (fun x y => decide (y.2 ≤ x.2))
    (fun x y => by
      rcases le_total y.2 x.2 with h | h
      · exact Or.inl (decide_eq_true h)
      · exact Or.inr (decide_eq_true h))
    (fun x y z h1 h2 =>
      decide_eq_true (le_trans (of_decide_eq_true h2) (of_decide_eq_true h1)))
    agg
  exact h.imp (fun hxy => of_decide_eq_true hxy)

/-- A top-n prefix of the descending sort is non-increasing in value. -/
theorem rankTopN_pairwise (agg : List (String × ℚ)) (n : Nat) :
    (rankTopN agg n).Pairwise (fun x y => y.2 ≤ x.2) :=
  (sortDesc_pairwise agg).sublist (List.take_sublist n (sortDesc agg))

/-- Group sum over a table with one more row: the new row contributes
to exactly its own key's group. -/
theorem groupSum_cons (r : Row) (t : List Row) (f : Row → String) (k : String) :
    groupSum (r :: t) f k = (if f r = k then r.importe else 0) + groupSum t f k := by
  by_cases h : f r = k
  · simp [groupSum, List.filter_cons, h]
  · simp [groupSum, List.filter_cons, h]

/-- Pointwise addition distributes over a mapped list sum. -/
theorem sum_map_add (g h : String → ℚ) : ∀ l : List String,
    (l.map (fun k => g k + h k)).sum = (l.map g).sum + (l.map h).sum := by
  intro l
  induction l with
  | nil => simp
  | cons a as ih => simp [ih]; ring

/-- An indicator sum over keys not containing the key is zero. -/
theorem sum_map_ite_not_mem (x : String) (c : ℚ) : ∀ l : List String, x ∉ l →
    (l.map (fun k => if x = k then c else 0)).sum = 0 := by
  intro l
  induction l with
  | nil => intro _; simp
  | cons a as ih =>
    intro hx
    have hxa : x ≠ a := fun h => hx (h ▸ List.mem_cons_self a as)
    have hxas : x ∉ as := fun h => hx (List.mem_cons_of_mem a h)
    simp [hxa, ih hxas]

/-- An indicator sum over a duplicate-free key list containing the key
is exactly the indicated value. -/
theorem sum_map_ite_nodup (x : String) (c : ℚ) : ∀ l : List String,
    l.Nodup → x ∈ l → (l.map (fun k => if x = k then c else 0)).sum = c := by
  intro l
  induction l with
  | nil => intro _ hx; cases hx
  | cons a as ih =>
    intro hnd hx
    rw [List.nodup_cons] at hnd
    rcases List.mem_cons.mp hx with rfl | hmem
    · simp [sum_map_ite_not_mem x c as hnd.1]
    · have hxa : x ≠ a := by
        rintro rfl; exact hnd.1 hmem
      simp [hxa, ih hnd.2 hmem]

/-- Partition identity: summing the per-group sums over any
duplicate-free key list covering the table gives the table total. -/
theorem sum_groupSums (f : Row → String) : ∀ (t : List Row) (ks : List String),
    ks.Nodup → (∀ r ∈ t, f r ∈ ks) →
    (ks.map (groupSum t f)).sum = (t.map Row.importe).sum := by
  intro t
  induction t with
  | nil =>
    intro ks _ _
    have h0 : ks.map (groupSum [] f) = ks.map (fun _ => (0 : ℚ)) :=
      List.map_congr_left (fun k _ => rfl)
    simp [h0]
  | cons r t' ih =>
    intro ks hnd hcov
    have hcov' : ∀ x ∈ t', f x ∈ ks := fun x hx => hcov x (List.mem_cons_of_mem r hx)
    have h1 : ks.map (groupSum (r :: t') f)
        = ks.map (fun k => (if f r = k then r.importe else 0) + groupSum t' f k) :=
      List.map_congr_left (fun k _ => groupSum_cons r t' f k)
    rw [h1, sum_map_add, sum_map_ite_nodup (f r) r.importe ks hnd (hcov r (List.mem_cons_self r t')),
      ih ks hnd hcov']
    simp

/-- C6: for every table and group field, the grouped sums add up to
the total Amount of the table — grouping drops no row and counts none
twice. -/
theorem sum_by_preserves_total :
    ∀ (t : List Row) (f : Row → String),
      ((sumBy t f).map Prod.snd).sum = (t.map Row.importe).sum := by
  intro t f
  have h1 : (sumBy t f).map Prod.snd
      = (sortBy strLe (distinctKeys t f)).map (groupSum t f) := by
    rw [sumBy, List.map_map]
    rfl
  have h2 : (((sortBy strLe (distinctKeys t f)).map (groupSum t f))).sum
      = ((distinctKeys t f).map (groupSum t f)).sum :=
    ((sortBy_perm strLe (distinctKeys t f)).map (groupSum t f)).sum_eq
  rw [h1, h2]
  exact sum_groupSums f t (distinctKeys t f) (List.nodup_dedup _)
    (fun r hr => List.mem_dedup.mpr (List.mem_map_of_mem f hr))

/-- C7: the top-n ranking has length min(n, number of distinct keys)
and its values are non-increasing from first to last. -/
theorem rank_top_n_spec :
    ∀ (t : List Row) (f : Row → String) (n : Nat),
      (rankTopN (sumBy t f) n).length = min n (distinctKeys t f).length ∧
      (rankTopN (sumBy t f) n).Pairwise (fun a b => b.2 ≤ a.2) := by
  intro t f n
  constructor
  · rw [rankTopN, List.length_take, sortDesc,
      (sortBy_perm (fun a b => decide (b.2 ≤ a.2)) (sumBy t f)).length_eq,
      sumBy, List.length_map, (sortBy_perm strLe (distinctKeys t f)).length_eq]
  · exact rankTopN_pairwise (sumBy t f) n

/-- C5 counterexample: with a table whose rows carry the Tipo keys "b"
then "a" (first-encountered order ["b", "a"]), the grouped-sum result
lists its keys as ["a", "b"] — pandas `groupby` sorts keys ascending by
default, so the keys are NOT in first-encountered (insertion) order. -/
theorem sum_by_insertion_order_counterexample :
    (sumBy [⟨2021, "b", "X", 1, "O"⟩, ⟨2021, "a", "Y", 2, "O"⟩] Row.tipo).map Prod.fst
        = ["a", "b"] ∧
    (["a", "b"] : List String) ≠ ["b", "a"] :=
  ⟨by decide, by decide⟩

/-- C5 (amended): the keys of a grouped-sum result appear in ascending
lexicographic key order (pandas `groupby` sorts group keys by
default), and the descending re-sort used for rankings produces values
in non-increasing order; the order of groups with exactly equal sums
is determined by the sort algorithm, not by the grouped order. -/
theorem sum_by_order_amended :
    ∀ (t : List Row) (f : Row → String) (n : Nat),
      ((sumBy t f).map Prod.fst).Pairwise (fun a b => strLe a b = true) ∧
      (rankTopN (sumBy t f) n).Pairwise (fun a b => b.2 ≤ a.2) := by
  intro t f n
  constructor
  · have h : (sumBy t f).map Prod.fst = sortBy strLe (distinctKeys t f) := by
      rw [sumBy, List.map_map]
      exact (List.map_congr_left (fun k _ => rfl)).trans (List.map_id _)
    rw [h]
    exact pairwise_sortBy strLe_total strLe_trans (distinctKeys t f)
  · exact rankTopN_pairwise (sumBy t f) n

/-- C4: the loaded table contains exactly the input rows whose Period
parses to a value in the closed interval [2021, 2024]: every loaded
row's Period is in range, every in-range input row is loaded, and a
row with Period 2025 or with a non-numeric Period is excluded
entirely. -/
theorem cargar_datos_period_range :
    (∀ (rs : List RawRow) (r : Row), r ∈ cargarDatos rs →
        2021 ≤ r.periodo ∧ r.periodo ≤ 2024) ∧
    (∀ (rs : List RawRow) (raw : RawRow), raw ∈ rs → ∀ p : ℚ,
        periodoValue raw.periodo = some p → 2021 ≤ p → p ≤ 2024 →
        (⟨p, raw.tipo, raw.soporte, importeValue raw.importe, raw.origen⟩ : Row)
          ∈ cargarDatos rs) ∧
    cargarDatos [⟨"2025", "TV", "X", "1", "O"⟩] = [] ∧
    cargarDatos [⟨"abc", "TV", "X", "1", "O"⟩] = [] := by
  refine ⟨?_, ?_, by decide, by decide⟩
  · intro rs r hr
    rw [cargarDatos, List.mem_filterMap] at hr
    obtain ⟨raw, _, hmap⟩ := hr
    split at hmap
    next p hp =>
      split at hmap
      next hcond =>
        injection hmap with h
        subst h
        exact hcond
      next hcond => exact absurd hmap (by simp)
    next hp => exact absurd hmap (by simp)
  · intro rs raw hmem p hp h1 h2
    rw [cargarDatos, List.mem_filterMap]
    refine ⟨raw, hmem, ?_⟩
    simp [hp, h1, h2]

/-- Witness for `cargar_datos_period_range`: a concrete 2021 row is
loaded, and the theorem's range bound holds of it. -/
theorem cargar_datos_period_range_witness :
    ((⟨mkRat 2021 1, "TV", "X", importeValue "7", "O"⟩ : Row)
        ∈ cargarDatos [⟨"2021", "TV", "X", "7", "O"⟩]) ∧
    (2021 ≤ (mkRat 2021 1 : ℚ) ∧ (mkRat 2021 1 : ℚ) ≤ 2024) := by
  have hmem : (⟨mkRat 2021 1, "TV", "X", importeValue "7", "O"⟩ : Row)
      ∈ cargarDatos [⟨"2021", "TV", "X", "7", "O"⟩] :=
    cargar_datos_period_range.2.1 [⟨"2021", "TV", "X", "7", "O"⟩]
      ⟨"2021", "TV", "X", "7", "O"⟩ (by decide) (mkRat 2021 1)
      (by decide) (by decide) (by decide)
  exact ⟨hmem, cargar_datos_period_range.1 _ _ hmem⟩

/-- C9 counterexample: the loader does not enforce non-negativity — a
raw Amount string "-5" in an in-range row loads as the negative value
-5, so not every loaded record has a non-negative Amount. -/
theorem loaded_amount_nonneg_counterexample :
    ¬ (∀ r ∈ cargarDatos [⟨"2021", "TV", "X", "-5", "O"⟩], 0 ≤ r.importe) := by
  decide

/-- C9 (amended): every record produced by the loader carries as its
Amount the total normalisation of some input row's raw Amount string
(parse failures coerced to 0.0, never an error), but the value may be
negative: non-negativity is not enforced anywhere in the loader. -/
theorem loaded_amount_amended :
    (∀ (rs : List RawRow) (r : Row), r ∈ cargarDatos rs →
        ∃ raw ∈ rs, r.importe = importeValue raw.importe) ∧
    (∃ r ∈ cargarDatos [⟨"2021", "TV", "X", "-5", "O"⟩], r.importe < 0) := by
  constructor
  · intro rs r hr
    rw [cargarDatos, List.mem_filterMap] at hr
    obtain ⟨raw, hmem, hmap⟩ := hr
    refine ⟨raw, hmem, ?_⟩
    split at hmap
    next p hp =>
      split at hmap
      next hcond =>
        injection hmap with h
        subst h
        rfl
      next hcond => exact absurd hmap (by simp)
    next hp => exact absurd hmap (by simp)
  · decide

/-- Witness for `loaded_amount_amended`: its first clause applied to
the concrete negative-Amount row. -/
theorem loaded_amount_amended_witness :
    ∃ raw ∈ [(⟨"2021", "TV", "X", "-5", "O"⟩ : RawRow)],
      (⟨mkRat 2021 1, "TV", "X", importeValue "-5", "O"⟩ : Row).importe
        = importeValue raw.importe :=
  loaded_amount_amended.1 [⟨"2021", "TV", "X", "-5", "O"⟩]
    ⟨mkRat 2021 1, "TV", "X", importeValue "-5", "O"⟩ (by decide)
